import Mathlib

/-!
Shallow embedding of the review-analysis pipeline (pipeline_app.py) and
verification of its specified properties.

Modelling conventions:
* datetimes are modelled as integers (`Int`); the day / time / isoformat
  renderings produced by strftime and isoformat are represented by the
  underlying instant, which preserves the orderings the code relies on;
* the LLM is an oracle `Nat → Except String String` giving the outcome of the
  i-th inference call of a run (`Except.error` models a raised exception,
  `Except.ok` the reply text); the classifier threads a call counter, so the
  number of calls issued is observable;
* provider page fetches are `Except String` values (`error` models a raised
  exception inside the scraping loop);
* `json.loads` is modelled by an executable decoder for the shape the
  classifier asks for and handles: a single flat JSON object with string keys
  and string / integer / `true` / `false` / `null` values, requiring the whole
  input to be consumed (as `json.loads` does).
-/

namespace PipelineApp

/-- `MAX_REVIEWS_PER_SOURCE` from the configuration block. -/
def MAX_REVIEWS_PER_SOURCE : Nat := 1000

/-- `PROCESSING_BATCH_SIZE` from the configuration block. -/
def PROCESSING_BATCH_SIZE : Nat := 50

/-- `TOPIC_LISTS["grocery"]`. -/
def groceryTopics : List String :=
  ["Delivery Experience", "Product Quality", "Product Availability", "Pricing & Value",
   "App Experience (UI/UX)", "Payments & Refunds", "Customer Support", "Offers & Discounts",
   "Order Accuracy & Packaging", "Miscellaneous"]

/-- `TOPIC_LISTS["games"]`. -/
def gamesTopics : List String :=
  ["Game Experience & Variety", "Trust & Fair Play", "Winning & Payouts",
   "Payments & Withdrawals", "Rewards & Bonuses", "Account & Verification",
   "App Performance & UI", "Customer Support", "Ads & Promotions",
   "Overall Positive Experience", "Overall Negative Experience", "Miscellaneous"]

/-- The `TOPIC_LISTS` dictionary, as an association list. -/
def TOPIC_LISTS : List (String × List String) :=
  [("grocery", groceryTopics), ("games", gamesTopics)]

/-- A normalized review record: the dictionary built by the scrapers with keys
`id`, `store`, `appid`, `Username`, `Date`, `Rating`, `Review Text`, `URL`,
`Timestamp`, `Topic`, `Sentiment`. -/
structure Review where
  id : String
  store : String
  appid : String
  username : String
  /-- The `Date` entry: the day rendering of the review instant. -/
  date : Int
  rating : Int
  reviewText : String
  url : String
  /-- The `Timestamp` entry: the isoformat rendering of the review instant. -/
  timestamp : Int
  topic : String
  sentiment : String
deriving Repr, DecidableEq

/-- A raw review object returned by the google-play-scraper library
(the fields of `r` that `scrape_play_store` reads). -/
structure GoogleRev where
  reviewId : String
  userName : String
  /-- The review instant, the dictionary's at entry. -/
  at_ : Int
  score : Int
  content : String
  /-- `r.get('url', ...)`: the library may or may not provide a URL. -/
  url : Option String
deriving Repr, DecidableEq

/-- A raw review object from the app-store-scraper library
(the fields of `r` that `scrape_app_store` reads). -/
structure AppleRev where
  review_id : String
  userName : String
  date : Int
  rating : Int
  review : String
deriving Repr, DecidableEq

/-- The record `scrape_play_store` appends for a raw Google Play review. -/
def googleReviewRecord (app_id : String) (r : GoogleRev) : Review :=
  { id := r.reviewId, store := "Google Play", appid := app_id, username := r.userName,
    date := r.at_, rating := r.score, reviewText := r.content,
    url := r.url.getD
      ("https://play.google.com/store/apps/details?id=" ++ app_id ++ "&reviewId=" ++ r.reviewId),
    timestamp := r.at_, topic := "N/A", sentiment := "N/A" }

/-- The inner `for r in result` loop of `scrape_play_store`: returns the
accumulated records, the updated `processed_count`, and whether the loop broke
early (which sets `token = None` and so ends the outer loop). -/
def playPage (app_id : String) (cutoff : Int) :
    List GoogleRev → Nat → List Review → List Review × Nat × Bool
  | [], count, acc => (acc, count, false)
  | r :: rs, count, acc =>
    if r.at_ < cutoff ∨ MAX_REVIEWS_PER_SOURCE ≤ count then (acc, count, true)
    else playPage app_id cutoff rs (count + 1) (acc ++ [googleReviewRecord app_id r])

/-- The outer `while processed_count < MAX_REVIEWS_PER_SOURCE` loop of
`scrape_play_store`.  Each list element is one `google_reviews` page fetch
(`error` = the fetch raised); the continuation token returned with a page is
`None` exactly when no pages remain, and the loop body discards a page that
arrives empty or with an exhausted token (`if not result or not token: break`). -/
def playPages (app_id : String) (cutoff : Int) :
    List (Except String (List GoogleRev)) → Nat → List Review → List Review
  | [], _, acc => acc
  | pg :: rest, count, acc =>
    if MAX_REVIEWS_PER_SOURCE ≤ count then acc
    else
      match pg with
      | .error _ => acc
      | .ok p =>
        if p.isEmpty || rest.isEmpty then acc
        else
          if (playPage app_id cutoff p count acc).2.2 then
            (playPage app_id cutoff p count acc).1
          else
            playPages app_id cutoff rest
              (playPage app_id cutoff p count acc).2.1
              (playPage app_id cutoff p count acc).1

/-- `scrape_play_store(app_id, cutoff_date)` run against a given page sequence. -/
def scrape_play_store (app_id : String) (cutoff : Int)
    (pages : List (Except String (List GoogleRev))) : List Review :=
  playPages app_id cutoff pages 0 []

/-- The record `scrape_app_store` appends for a raw App Store review. -/
def appleReviewRecord (app_name : String) (r : AppleRev) : Review :=
  { id := r.review_id, store := "App Store", appid := app_name, username := r.userName,
    date := r.date, rating := r.rating, reviewText := r.review, url := "",
    timestamp := r.date, topic := "N/A", sentiment := "N/A" }

/-- The `for r in scraper.reviews` loop of `scrape_app_store`: stops at the
first review older than the cutoff. -/
def appleLoop (app_name : String) (cutoff : Int) :
    List AppleRev → List Review → List Review
  | [], acc => acc
  | r :: rs, acc =>
    if r.date < cutoff then acc
    else appleLoop app_name cutoff rs (acc ++ [appleReviewRecord app_name r])

/-- `scrape_app_store(app_name, country, cutoff_date)`: `fetched` is the
outcome of building the scraper and fetching its review list (`error` = some
step raised, in which case the function returns `[]`). -/
def scrape_app_store (app_name : String) (cutoff : Int)
    (fetched : Except String (List AppleRev)) : List Review :=
  match fetched with
  | .error _ => []
  | .ok revs => appleLoop app_name cutoff revs []

/-- The left-brace character, `chr 123`. -/
def lbrace : Char := Char.ofNat 123

/-- The right-brace character, `chr 125`. -/
def rbrace : Char := Char.ofNat 125

/-- Drop characters strictly before the first left brace (keeping it). -/
def dropToLBrace : List Char → List Char
  | [] => []
  | c :: cs => if c = lbrace then c :: cs else dropToLBrace cs

/-- Drop characters strictly before the first right brace (keeping it). -/
def dropToRBrace : List Char → List Char
  | [] => []
  | c :: cs => if c = rbrace then c :: cs else dropToRBrace cs

/-- Model of `re.search` for the classifier's DOTALL pattern (a left brace,
then any characters, then a right brace, with the middle greedy): the match,
when one exists, runs from the first left brace of the text to the last right
brace of the text. -/
def extractBraced (cs : List Char) : Option (List Char) :=
  match dropToLBrace cs with
  | [] => none
  | c :: tail =>
    match dropToRBrace (c :: tail).reverse with
    | [] => none
    | d :: rtail => some ((d :: rtail).reverse)

/-- A decoded JSON value as the classifier can observe it: a string, or a
non-string scalar (integer, `true`, `false`, `null`) kept as its token text. -/
inductive JVal where
  | str (s : String)
  | raw (s : String)
deriving Repr, DecidableEq

/-- Drop leading whitespace. -/
def skipWs (cs : List Char) : List Char :=
  cs.dropWhile (fun c => c.isWhitespace)

/-- The double-quote character. -/
def quoteChar : Char := '\"'

/-- Decode a JSON string literal at the head of the input (escape-free
strings, the shape the classifier's replies use). -/
def parseJString : List Char → Option (String × List Char)
  | [] => none
  | c :: cs =>
    if c = quoteChar then
      match cs.dropWhile (fun d => d ≠ quoteChar) with
      | _ :: rest => some (String.mk (cs.takeWhile (fun d => d ≠ quoteChar)), rest)
      | [] => none
    else none

/-- Characters that end a non-string scalar token. -/
def isRawStop (c : Char) : Bool :=
  c = ',' || c = rbrace || c = ':' || c.isWhitespace

/-- Valid non-string scalar tokens: the three JSON literals and (signed)
integers. -/
def validRawToken (s : String) : Bool :=
  s = "true" || s = "false" || s = "null" ||
    (decide (s.data ≠ []) && s.data.all Char.isDigit) ||
    (match s.data with
     | c :: d :: ds => c = '-' && (d :: ds).all Char.isDigit
     | _ => false)

/-- Decode a JSON value at the head of the input. -/
def parseJValue (cs : List Char) : Option (JVal × List Char) :=
  match cs with
  | [] => none
  | c :: cs2 =>
    if c = quoteChar then
      match parseJString (c :: cs2) with
      | some (s, rest) => some (.str s, rest)
      | none => none
    else
      let tok := (c :: cs2).takeWhile (fun d => ! isRawStop d)
      if validRawToken (String.mk tok) then
        some (.raw (String.mk tok), (c :: cs2).dropWhile (fun d => ! isRawStop d))
      else none

/-- Decode the members of a JSON object after its opening brace, fuelled by
the input length. -/
def parseMembers : Nat → List (String × JVal) → List Char →
    Option (List (String × JVal) × List Char)
  | 0, _, _ => none
  | fuel + 1, acc, cs =>
    match parseJString (skipWs cs) with
    | none => none
    | some (k, cs1) =>
      match skipWs cs1 with
      | c :: cs2 =>
        if c = ':' then
          match parseJValue (skipWs cs2) with
          | none => none
          | some (v, cs3) =>
            match skipWs cs3 with
            | d :: cs4 =>
              if d = ',' then parseMembers fuel (acc ++ [(k, v)]) cs4
              else if d = rbrace then some (acc ++ [(k, v)], cs4)
              else none
            | [] => none
        else none
      | [] => none

/-- Model of `json.loads` on the object shape the classifier handles: a single
flat JSON object with string keys; the whole input must be consumed. -/
def jsonLoadsObj (cs : List Char) : Option (List (String × JVal)) :=
  match skipWs cs with
  | [] => none
  | c :: cs1 =>
    if c = lbrace then
      match skipWs cs1 with
      | d :: cs2 =>
        if d = rbrace then (if skipWs cs2 = [] then some [] else none)
        else
          match parseMembers (cs1.length + 1) [] cs1 with
          | some (obj, rest) => if skipWs rest = [] then some obj else none
          | none => none
      | [] => none
    else none

/-- Python dictionary lookup (`result.get(k)`): with duplicate keys the last
binding wins, as in a Python dict literal. -/
def dictGet (obj : List (String × JVal)) (k : String) : Option JVal :=
  obj.reverse.lookup k

/-- `topic = result.get('topic', 'Miscellaneous')` followed by
`if topic not in topic_list: topic = 'Miscellaneous'`.  A missing key defaults
to `Miscellaneous`; a non-string value is never an element of the (string)
topic list, so it maps to `Miscellaneous` through the membership check. -/
def topicFrom (topic_list : List String) (obj : List (String × JVal)) : String :=
  match dictGet obj "topic" with
  | some (.str t) => if t ∈ topic_list then t else "Miscellaneous"
  | some (.raw _) => "Miscellaneous"
  | none => "Miscellaneous"

/-- `result.get('sentiment', 'Error')`; a non-string value is kept as its
token text. -/
def sentimentFrom (obj : List (String × JVal)) : String :=
  match dictGet obj "sentiment" with
  | some (.str s) => s
  | some (.raw s) => s
  | none => "Error"

/-- Model of the blank-record guard `not review.get('Review Text', '').strip()`:
the stripped text is empty exactly when every character is whitespace. -/
def strippedEmpty (s : String) : Bool :=
  s.data.all Char.isWhitespace

/-- The classifier's reply parsing: locate the regex match in the reply text
(raising when there is none) and `json.loads` it.  `none` means the `except`
branch is taken. -/
def parseReply (text : String) : Option (List (String × JVal)) :=
  match extractBraced text.data with
  | none => none
  | some js => jsonLoadsObj js

/-- The body of `analyze_reviews_with_llm`'s `try`/`except` for one non-blank
record: on a raised inference call, an unparsable reply, or a decode failure
the record is marked `sentiment = Error`, `topic = Miscellaneous`; otherwise
the decoded sentiment and (taxonomy-checked) topic are written. -/
def classifyOutcome (topic_list : List String) (outcome : Except String String)
    (review : Review) : Review :=
  match outcome with
  | .error _ => { review with sentiment := "Error", topic := "Miscellaneous" }
  | .ok text =>
    match parseReply text with
    | none => { review with sentiment := "Error", topic := "Miscellaneous" }
    | some obj =>
      { review with sentiment := sentimentFrom obj, topic := topicFrom topic_list obj }

/-- The `for i, review in enumerate(review_list)` loop of
`analyze_reviews_with_llm`, threading the index of the next inference call:
a record with blank text is appended unchanged and issues no call; any other
record issues exactly one call (`llm k`) and is appended classified. -/
def analyzeGo (llm : Nat → Except String String) (topic_list : List String) :
    List Review → Nat → List Review × Nat
  | [], k => ([], k)
  | review :: rest, k =>
    if strippedEmpty review.reviewText then
      (review :: (analyzeGo llm topic_list rest k).1, (analyzeGo llm topic_list rest k).2)
    else
      (classifyOutcome topic_list (llm k) review :: (analyzeGo llm topic_list rest (k + 1)).1,
       (analyzeGo llm topic_list rest (k + 1)).2)

/-- `analyze_reviews_with_llm(model, review_list, topic_list)`: the returned
`analyzed_reviews` list, with the oracle's call counter starting at 0. -/
def analyze_reviews_with_llm (llm : Nat → Except String String)
    (review_list : List Review) (topic_list : List String) : List Review :=
  (analyzeGo llm topic_list review_list 0).1

/-- A row of the `raw_reviews` storage schema, as built by
`sync_raw_reviews_to_supabase`. -/
structure SupabaseRow where
  id : String
  store : String
  app_id : String
  user_name : String
  review_date : Int
  /-- The time-of-day rendering of the record's timestamp. -/
  review_time : Int
  rating : Int
  review_text : String
  source_url : String
  created_at : Int
  topic : String
  sentiment : String
deriving Repr, DecidableEq

/-- The per-record schema transformation of `sync_raw_reviews_to_supabase`. -/
def toSupabaseRow (r : Review) : SupabaseRow :=
  { id := r.id, store := r.store, app_id := r.appid, user_name := r.username,
    review_date := r.date, review_time := r.timestamp, rating := r.rating,
    review_text := r.reviewText, source_url := r.url, created_at := r.timestamp,
    topic := r.topic, sentiment := r.sentiment }

/-- `sync_raw_reviews_to_supabase(supabase, review_list)`: `upsert` is the
datastore's upsert operation (`ok rows` = the response data on success,
`error` = a raised exception, which the function catches, returning 0). -/
def sync_raw_reviews_to_supabase
    (upsert : List SupabaseRow → Except String (List SupabaseRow))
    (review_list : List Review) : Nat :=
  if review_list = [] then 0
  else
    match upsert (review_list.map toSupabaseRow) with
    | .ok rows => rows.length
    | .error _ => 0

/-- The deduplication step of `run_pipeline`:
`[r for r in all_scraped_reviews if r['id'] not in existing_ids]`. -/
def dedupReviews (existing_ids : List String) (reviews : List Review) : List Review :=
  reviews.filter (fun r => decide (r.id ∉ existing_ids))

/-- The pre-persist filter of `run_pipeline`'s batch loop:
`[r for r in analyzed_batch if r.get('Topic') and r.get('Topic') not in ['N/A', 'Error']]`. -/
def validTopicFilter (batch : List Review) : List Review :=
  batch.filter (fun r => decide (r.topic ≠ "" ∧ r.topic ≠ "N/A" ∧ r.topic ≠ "Error"))

/-- Fuelled slicing loop behind `chunksOf`. -/
def chunksAux {α : Type} (c : Nat) : Nat → List α → List (List α)
  | _, [] => []
  | 0, _ :: _ => []
  | fuel + 1, a :: l => ((a :: l).take c) :: chunksAux c fuel ((a :: l).drop c)

/-- Model of `run_pipeline`'s batching,
`for i in range(0, len(l), c): l[i:i+c]`: the list of successive slices of
width `c`.  The fuel `l.length` suffices for any positive `c`. -/
def chunksOf {α : Type} (c : Nat) (l : List α) : List (List α) :=
  chunksAux c l.length l

/-- Modelled from the spec: "locating the first balanced structured-object
substring in the free-form reply" — scan to the first left brace and take the
shortest balanced-brace span from it.  (This is the spec's description of the
parser; the code's actual extraction is `extractBraced`.) -/
def takeBalanced (depth : Nat) (acc : List Char) : List Char → Option (List Char)
  | [] => none
  | c :: cs =>
    if c = lbrace then takeBalanced (depth + 1) (acc ++ [c]) cs
    else if c = rbrace then
      (if depth = 1 then some (acc ++ [c]) else takeBalanced (depth - 1) (acc ++ [c]) cs)
    else takeBalanced depth (acc ++ [c]) cs

/-- Modelled from the spec: the first balanced structured-object substring of
a reply. -/
def specFirstBalanced (cs : List Char) : Option (List Char) :=
  match dropToLBrace cs with
  | [] => none
  | c :: tail => takeBalanced 0 [] (c :: tail)

/-- Modelled from the spec: parse a reply by decoding its first balanced
structured-object substring. -/
def specParseReply (text : String) : Option (List (String × JVal)) :=
  match specFirstBalanced text.data with
  | none => none
  | some js => jsonLoadsObj js

/-- A concrete well-formed scraped record, used for witnesses and scenarios. -/
def sampleReview (rid : String) : Review :=
  { id := rid, store := "Google Play", appid := "com.example.app", username := "user",
    date := 100, rating := 5, reviewText := "good app", url := "", timestamp := 100,
    topic := "N/A", sentiment := "N/A" }

/-- A scraped record whose review text is whitespace-only. -/
def blankReview : Review :=
  { sampleReview "blank" with reviewText := "   " }

/-- The inference reply text of the spec's parsing scenario. -/
def scenarioReply : String :=
  "Sure! \x7b\"sentiment\":\"Positive\",\"topic\":\"Pricing & Value\"\x7d Thanks."

/-- A reply holding two disjoint brace groups: a well-formed object followed
by prose and a second object. -/
def cexReply : String := "\x7b\"a\":\"b\"\x7d and \x7b\"c\":\"d\"\x7d"

/-- The page sequences accepted by the Google Play provider model: the raw
review pages that arrive without an exception. -/
def okPages (pages : List (Except String (List GoogleRev))) : List (List GoogleRev) :=
  pages.filterMap (fun pg => match pg with | .ok p => some p | .error _ => none)

/-- The review list the App Store scraper model iterates (empty when the
fetch raised). -/
def okApple (fetched : Except String (List AppleRev)) : List AppleRev :=
  match fetched with
  | .ok revs => revs
  | .error _ => []

theorem dedup_filter_mem (S : List String) (L : List Review) (r : Review) :
    r ∈ dedupReviews S L ↔ r ∈ L ∧ r.id ∉ S := by
  simp [dedupReviews, List.mem_filter]

/-- Claim C9: filtering a candidate list against an unchanged existing-ID set
twice yields the same output as filtering once. -/
theorem C9_dedup_idempotent (S : List String) (L : List Review) :
    dedupReviews S (dedupReviews S L) = dedupReviews S L := by
  simp [dedupReviews, List.filter_filter]

/-- Claim C6: the deduplication step returns exactly the candidates whose id
is absent from the existing-ID set (it is a sublist of the candidates, every
returned record's id is absent, and every absent-id candidate is returned);
in particular existing-ID set A with candidates id A, id B yields the
candidate with id B. -/
theorem C6_dedup_exact (S : List String) (L : List Review) :
    (dedupReviews S L).Sublist L ∧
    (∀ r ∈ dedupReviews S L, r.id ∉ S) ∧
    (∀ r ∈ L, r.id ∉ S → r ∈ dedupReviews S L) ∧
    dedupReviews ["A"] [sampleReview "A", sampleReview "B"] = [sampleReview "B"] := by
  refine ⟨List.filter_sublist L, ?_, ?_, by decide⟩
  · intro r hr
    exact ((dedup_filter_mem S L r).mp hr).2
  · intro r hrL hrS
    exact (dedup_filter_mem S L r).mpr ⟨hrL, hrS⟩

theorem C6_dedup_exact_witness :
    sampleReview "B" ∈ dedupReviews ["A"] [sampleReview "A", sampleReview "B"] :=
  (C6_dedup_exact ["A"] [sampleReview "A", sampleReview "B"]).2.2.1
    (sampleReview "B") (by decide) (by decide)

/-- Claim C7: for a non-empty record list, a raised datastore upsert is caught
and reported as 0, and a successful upsert reports the row count of the
store's response. -/
theorem C7_persister_outcome
    (upsert : List SupabaseRow → Except String (List SupabaseRow))
    (l : List Review) (hne : l ≠ []) :
    (∀ e, upsert (l.map toSupabaseRow) = Except.error e →
        sync_raw_reviews_to_supabase upsert l = 0) ∧
    (∀ rows, upsert (l.map toSupabaseRow) = Except.ok rows →
        sync_raw_reviews_to_supabase upsert l = rows.length) := by
  constructor
  · intro e he
    simp [sync_raw_reviews_to_supabase, hne, he]
  · intro rows hrows
    simp [sync_raw_reviews_to_supabase, hne, hrows]

theorem C7_persister_outcome_witness :
    sync_raw_reviews_to_supabase (fun rs => Except.ok rs) [sampleReview "A"] = 1 ∧
    sync_raw_reviews_to_supabase (fun _ => Except.error "disk") [sampleReview "A"] = 0 := by
  constructor
  · have h := (C7_persister_outcome (fun rs => Except.ok rs) [sampleReview "A"]
      (by decide)).2 ([sampleReview "A"].map toSupabaseRow) rfl
    simpa using h
  · exact (C7_persister_outcome (fun _ => Except.error "disk") [sampleReview "A"]
      (by decide)).1 "disk" rfl

theorem classifyOutcome_reviewText (tl : List String) (o : Except String String) (r : Review) :
    (classifyOutcome tl o r).reviewText = r.reviewText := by
  rcases o with e | t
  · rfl
  · rcases h : parseReply t with _ | obj <;> simp [classifyOutcome, h]

theorem topicFrom_mem (tl : List String) (obj : List (String × JVal))
    (hmisc : "Miscellaneous" ∈ tl) : topicFrom tl obj ∈ tl := by
  rcases h : dictGet obj "topic" with _ | v
  · simpa [topicFrom, h] using hmisc
  · rcases v with s | s
    · by_cases hs : s ∈ tl
      · simp [topicFrom, h, hs]
      · simpa [topicFrom, h, hs] using hmisc
    · simpa [topicFrom, h] using hmisc

theorem classifyOutcome_topic_mem (tl : List String) (o : Except String String) (r : Review)
    (hmisc : "Miscellaneous" ∈ tl) : (classifyOutcome tl o r).topic ∈ tl := by
  rcases o with e | t
  · simpa [classifyOutcome] using hmisc
  · rcases h : parseReply t with _ | obj
    · simpa [classifyOutcome, h] using hmisc
    · simpa [classifyOutcome, h] using topicFrom_mem tl obj hmisc

theorem analyzeGo_length (llm : Nat → Except String String) (tl : List String) :
    ∀ (l : List Review) (k : Nat), (analyzeGo llm tl l k).1.length = l.length := by
  intro l
  induction l with
  | nil => intro k; rfl
  | cons r rest ih =>
    intro k
    by_cases hb : strippedEmpty r.reviewText
    · simp [analyzeGo, hb, ih]
    · simp [analyzeGo, hb, ih]

theorem analyzeGo_append (llm : Nat → Except String String) (tl : List String) :
    ∀ (l1 l2 : List Review) (k : Nat),
      analyzeGo llm tl (l1 ++ l2) k =
        ((analyzeGo llm tl l1 k).1 ++ (analyzeGo llm tl l2 (analyzeGo llm tl l1 k).2).1,
         (analyzeGo llm tl l2 (analyzeGo llm tl l1 k).2).2) := by
  intro l1
  induction l1 with
  | nil => intro l2 k; simp [analyzeGo]
  | cons r rest ih =>
    intro l2 k
    by_cases hb : strippedEmpty r.reviewText
    · simp [analyzeGo, hb, ih]
    · simp [analyzeGo, hb, ih]

theorem analyzeGo_mem_characterized (llm : Nat → Except String String) (tl : List String)
    (hmisc : "Miscellaneous" ∈ tl) :
    ∀ (l : List Review) (k : Nat), ∀ r ∈ (analyzeGo llm tl l k).1,
      (¬ strippedEmpty r.reviewText → r.topic ∈ tl) ∧
      (strippedEmpty r.reviewText → r ∈ l) := by
  intro l
  induction l with
  | nil => intro k r hr; simp [analyzeGo] at hr
  | cons a rest ih =>
    intro k r hr
    by_cases hb : strippedEmpty a.reviewText
    · simp only [analyzeGo, if_pos hb, List.mem_cons] at hr
      rcases hr with rfl | hr
      · exact ⟨fun hc => absurd hb hc, fun _ => List.mem_cons_self _ rest⟩
      · obtain ⟨h1, h2⟩ := ih k r hr
        exact ⟨h1, fun h => List.mem_cons_of_mem a (h2 h)⟩
    · simp only [analyzeGo, if_neg hb, List.mem_cons] at hr
      rcases hr with rfl | hr
      · refine ⟨fun _ => classifyOutcome_topic_mem tl (llm k) a hmisc, fun hc => ?_⟩
        · rw [classifyOutcome_reviewText] at hc
          exact absurd hc hb
      · obtain ⟨h1, h2⟩ := ih (k + 1) r hr
        exact ⟨h1, fun h => List.mem_cons_of_mem a (h2 h)⟩

/-- Claim C1 counterexample: a whitespace-only record processed with the
grocery taxonomy emerges from the classifier with its sentinel topic N/A,
which is not a member of the grocery taxonomy. -/
theorem C1_counterexample :
    TOPIC_LISTS.lookup "grocery" = some groceryTopics ∧
    analyze_reviews_with_llm (fun _ => Except.ok "") [blankReview] groceryTopics
      = [blankReview] ∧
    blankReview.topic ∉ groceryTopics := by
  decide

/-- Claim C1 (amended): every record emerging from the classifier whose text
is not blank has a topic in the given industry taxonomy (which holds the
catch-all Miscellaneous), whatever the outcome of the inference call or the
reply's topic; blank-text records instead pass through as input records,
keeping their sentinel topic. -/
theorem C1_taxonomy_amended (llm : Nat → Except String String) (tl : List String)
    (l : List Review) (hmisc : "Miscellaneous" ∈ tl) :
    ∀ r ∈ analyze_reviews_with_llm llm l tl,
      (¬ strippedEmpty r.reviewText → r.topic ∈ tl) ∧
      (strippedEmpty r.reviewText → r ∈ l) := by
  intro r hr
  exact analyzeGo_mem_characterized llm tl hmisc l 0 r hr

theorem C1_taxonomy_amended_witness :
    ({ sampleReview "A" with sentiment := "Error", topic := "Miscellaneous" } : Review).topic
      ∈ groceryTopics :=
  (C1_taxonomy_amended (fun _ => Except.error "down") groceryTopics [sampleReview "A"]
      (by decide)
      { sampleReview "A" with sentiment := "Error", topic := "Miscellaneous" }
      (by decide)).1 (by decide)

/-- Claim C8: a record whose text is blank (empty or whitespace-only) is
appended unchanged, with its sentinel topic and sentiment intact, and
consumes no inference call: the records after it use exactly the call indices
they would use if it were absent. -/
theorem C8_blank_passthrough (llm : Nat → Except String String) (tl : List String)
    (l1 l2 : List Review) (r : Review)
    (hblank : strippedEmpty r.reviewText) :
    (∀ k, analyzeGo llm tl (l1 ++ r :: l2) k =
      ((analyzeGo llm tl l1 k).1 ++ r :: (analyzeGo llm tl l2 (analyzeGo llm tl l1 k).2).1,
       (analyzeGo llm tl l2 (analyzeGo llm tl l1 k).2).2)) ∧
    analyze_reviews_with_llm llm (l1 ++ r :: l2) tl =
      (analyzeGo llm tl l1 0).1 ++ r :: (analyzeGo llm tl l2 (analyzeGo llm tl l1 0).2).1 := by
  have hk : ∀ k, analyzeGo llm tl (l1 ++ r :: l2) k =
      ((analyzeGo llm tl l1 k).1 ++ r :: (analyzeGo llm tl l2 (analyzeGo llm tl l1 k).2).1,
       (analyzeGo llm tl l2 (analyzeGo llm tl l1 k).2).2) := by
    intro k
    rw [analyzeGo_append]
    simp [analyzeGo, hblank]
  refine ⟨hk, ?_⟩
  unfold analyze_reviews_with_llm
  rw [hk 0]

theorem C8_blank_passthrough_witness :
    analyze_reviews_with_llm (fun _ => Except.error "down")
        ([sampleReview "A"] ++ blankReview :: [sampleReview "B"]) groceryTopics =
      (analyzeGo (fun _ => Except.error "down") groceryTopics [sampleReview "A"] 0).1 ++
        blankReview ::
          (analyzeGo (fun _ => Except.error "down") groceryTopics [sampleReview "B"]
            (analyzeGo (fun _ => Except.error "down") groceryTopics [sampleReview "A"] 0).2).1 :=
  (C8_blank_passthrough (fun _ => Except.error "down") groceryTopics
    [sampleReview "A"] [sampleReview "B"] blankReview (by decide)).2

/-- Claim C3: a non-blank record whose inference reply holds no braced object
(the regex raises) or whose extracted object fails to decode is marked
sentiment Error, topic Miscellaneous and kept in place; and the classifier
always returns exactly as many records as it was given. -/
theorem C3_parse_failure_fallback (llm : Nat → Except String String) (tl : List String)
    (l1 l2 : List Review) (r : Review) (t : String) (k : Nat)
    (hne : ¬ strippedEmpty r.reviewText)
    (hok : llm (analyzeGo llm tl l1 k).2 = Except.ok t)
    (hbad : extractBraced t.data = none ∨
      ∃ js, extractBraced t.data = some js ∧ jsonLoadsObj js = none) :
    (analyzeGo llm tl (l1 ++ r :: l2) k).1 =
      (analyzeGo llm tl l1 k).1 ++
        { r with sentiment := "Error", topic := "Miscellaneous" } ::
          (analyzeGo llm tl l2 ((analyzeGo llm tl l1 k).2 + 1)).1 ∧
    ∀ L : List Review, (analyze_reviews_with_llm llm L tl).length = L.length := by
  constructor
  · have hparse : parseReply t = none := by
      rcases hbad with h | ⟨js, hjs, hnone⟩
      · simp [parseReply, h]
      · simp [parseReply, hjs, hnone]
    rw [analyzeGo_append]
    simp [analyzeGo, hne, hok, classifyOutcome, hparse]
  · intro L
    unfold analyze_reviews_with_llm
    exact analyzeGo_length llm tl L 0

theorem C3_parse_failure_fallback_witness :
    (analyzeGo (fun _ => Except.ok "no json here") groceryTopics
        ([] ++ sampleReview "A" :: []) 0).1 =
      (analyzeGo (fun _ => Except.ok "no json here") groceryTopics [] 0).1 ++
        { sampleReview "A" with sentiment := "Error", topic := "Miscellaneous" } ::
          (analyzeGo (fun _ => Except.ok "no json here") groceryTopics []
            ((analyzeGo (fun _ => Except.ok "no json here") groceryTopics [] 0).2 + 1)).1 :=
  (C3_parse_failure_fallback (fun _ => Except.ok "no json here") groceryTopics
    [] [] (sampleReview "A") "no json here" 0 (by decide) rfl
    (Or.inl (by decide))).1

/-- Claim C10: a record with non-empty text whose inference call raises
leaves the classifier marked sentiment Error, topic Miscellaneous, passes the
orchestrator's pre-persist filter (which removes only unset/error topics),
and so is included in the list handed to the persister. -/
theorem C10_error_records_persisted :
    analyze_reviews_with_llm (fun _ => Except.error "boom") [sampleReview "E"] groceryTopics
      = [{ sampleReview "E" with sentiment := "Error", topic := "Miscellaneous" }] ∧
    ({ sampleReview "E" with sentiment := "Error", topic := "Miscellaneous" }) ∈
      validTopicFilter
        (analyze_reviews_with_llm (fun _ => Except.error "boom") [sampleReview "E"] groceryTopics) := by
  decide

theorem dropToLBrace_append (xs ys : List Char) (h : lbrace ∉ xs) :
    dropToLBrace (xs ++ ys) = dropToLBrace ys := by
  induction xs with
  | nil => rfl
  | cons c cs ih =>
    have h1 : ¬ c = lbrace := by
      intro hc
      exact h (by simp [hc])
    have h2 : lbrace ∉ cs := fun hc => h (List.mem_cons_of_mem c hc)
    simp [dropToLBrace, h1, ih h2]

theorem dropToRBrace_append (xs ys : List Char) (h : rbrace ∉ xs) :
    dropToRBrace (xs ++ ys) = dropToRBrace ys := by
  induction xs with
  | nil => rfl
  | cons c cs ih =>
    have h1 : ¬ c = rbrace := by
      intro hc
      exact h (by simp [hc])
    have h2 : rbrace ∉ cs := fun hc => h (List.mem_cons_of_mem c hc)
    simp [dropToRBrace, h1, ih h2]

theorem extractBraced_pre_body_suf (pre body suf : List Char)
    (hpre : lbrace ∉ pre) (hsuf : rbrace ∉ suf)
    (hhead : body.head? = some lbrace) (hlast : body.getLast? = some rbrace) :
    extractBraced (pre ++ body ++ suf) = some body := by
  obtain ⟨bt, rfl⟩ : ∃ bt, body = lbrace :: bt := by
    cases body with
    | nil => simp at hhead
    | cons c t =>
      simp at hhead
      exact ⟨t, by rw [hhead]⟩
  obtain ⟨rb, hrev⟩ : ∃ rb, (lbrace :: bt).reverse = rbrace :: rb := by
    have h3 : (lbrace :: bt).reverse.head? = some rbrace := by
      rw [List.head?_reverse]
      exact hlast
    cases hrev2 : (lbrace :: bt).reverse with
    | nil => rw [hrev2] at h3; simp at h3
    | cons d ds =>
      rw [hrev2] at h3
      simp at h3
      exact ⟨ds, by rw [h3]⟩
  have h2 : dropToLBrace (pre ++ (lbrace :: bt) ++ suf) = lbrace :: (bt ++ suf) := by
    rw [List.append_assoc, dropToLBrace_append pre _ hpre]
    simp [dropToLBrace]
  have h4 : dropToRBrace ((lbrace :: (bt ++ suf)).reverse) = rbrace :: rb := by
    have hsplit : (lbrace :: (bt ++ suf)).reverse = suf.reverse ++ (lbrace :: bt).reverse := by
      simp [List.reverse_cons, List.reverse_append, List.append_assoc]
    rw [hsplit, dropToRBrace_append suf.reverse _ (by simpa using hsuf), hrev]
    simp [dropToRBrace]
  simp only [extractBraced, h2]
  rw [h4]
  show some ((rbrace :: rb).reverse) = some (lbrace :: bt)
  rw [← hrev, List.reverse_reverse]

/-- Claim C2 counterexample: on a reply holding two disjoint brace groups the
code's parser takes the span from the first left brace to the last right
brace, whose decode fails, while decoding the first balanced object (as the
claim describes the parser) succeeds — so the parser does not extract the
first balanced structured-object substring of every reply. -/
theorem C2_counterexample :
    specParseReply cexReply = some [("a", JVal.str "b")] ∧
    parseReply cexReply = none ∧
    parseReply cexReply ≠ specParseReply cexReply := by
  decide

/-- Claim C2 (amended): the parser extracts the span from the first left
brace to the last right brace of the reply and decodes that; it tolerates
surrounding prose holding no braces (the extracted span is then exactly the
braced object), and on the scenario reply it yields sentiment Positive and
topic Pricing & Value with the grocery taxonomy. -/
theorem C2_greedy_extraction (pre body suf : List Char)
    (hpre : lbrace ∉ pre) (hsuf : rbrace ∉ suf)
    (hhead : body.head? = some lbrace) (hlast : body.getLast? = some rbrace) :
    extractBraced (pre ++ body ++ suf) = some body ∧
    parseReply scenarioReply
      = some [("sentiment", JVal.str "Positive"), ("topic", JVal.str "Pricing & Value")] ∧
    classifyOutcome groceryTopics (Except.ok scenarioReply) (sampleReview "A")
      = { sampleReview "A" with sentiment := "Positive", topic := "Pricing & Value" } :=
  ⟨extractBraced_pre_body_suf pre body suf hpre hsuf hhead hlast, by decide, by decide⟩

theorem C2_greedy_extraction_witness :
    extractBraced ("Sure! ".data
        ++ "\x7b\"sentiment\":\"Positive\",\"topic\":\"Pricing & Value\"\x7d".data
        ++ " Thanks.".data)
      = some "\x7b\"sentiment\":\"Positive\",\"topic\":\"Pricing & Value\"\x7d".data :=
  (C2_greedy_extraction "Sure! ".data
    "\x7b\"sentiment\":\"Positive\",\"topic\":\"Pricing & Value\"\x7d".data
    " Thanks.".data (by decide) (by decide) (by decide) (by decide)).1

theorem playPage_mem (app_id : String) (cutoff : Int) :
    ∀ (rs : List GoogleRev) (count : Nat) (acc : List Review) (r : Review),
      r ∈ (playPage app_id cutoff rs count acc).1 → r ∈ acc ∨ cutoff ≤ r.date := by
  intro rs
  induction rs with
  | nil =>
    intro count acc r hr
    exact Or.inl (by simpa [playPage] using hr)
  | cons g gs ih =>
    intro count acc r hr
    simp only [playPage] at hr
    split at hr
    · exact Or.inl hr
    · rcases ih (count + 1) (acc ++ [googleReviewRecord app_id g]) r hr with h | h
      · rcases List.mem_append.mp h with h2 | h2
        · exact Or.inl h2
        · right
          have h3 : r = googleReviewRecord app_id g := by simpa using h2
          subst h3
          rename_i hguard
          push_neg at hguard
          simpa [googleReviewRecord] using hguard.1
      · exact Or.inr h

theorem playPages_mem (app_id : String) (cutoff : Int) :
    ∀ (pages : List (Except String (List GoogleRev))) (count : Nat) (acc : List Review)
      (r : Review),
      r ∈ playPages app_id cutoff pages count acc → r ∈ acc ∨ cutoff ≤ r.date := by
  intro pages
  induction pages with
  | nil =>
    intro count acc r hr
    exact Or.inl (by simpa [playPages] using hr)
  | cons pg rest ih =>
    intro count acc r hr
    rcases pg with e | p
    · simp only [playPages, ite_self] at hr
      exact Or.inl hr
    · simp only [playPages] at hr
      split at hr
      · exact Or.inl hr
      · split at hr
        · exact Or.inl hr
        · split at hr
          · exact playPage_mem app_id cutoff p count acc r hr
          · rcases ih _ _ r hr with h | h
            · exact playPage_mem app_id cutoff p count acc r h
            · exact Or.inr h

theorem appleLoop_mem (app_name : String) (cutoff : Int) :
    ∀ (rs : List AppleRev) (acc : List Review) (r : Review),
      r ∈ appleLoop app_name cutoff rs acc → r ∈ acc ∨ cutoff ≤ r.date := by
  intro rs
  induction rs with
  | nil =>
    intro acc r hr
    exact Or.inl (by simpa [appleLoop] using hr)
  | cons g gs ih =>
    intro acc r hr
    simp only [appleLoop] at hr
    split at hr
    · exact Or.inl hr
    · rcases ih (acc ++ [appleReviewRecord app_name g]) r hr with h | h
      · rcases List.mem_append.mp h with h2 | h2
        · exact Or.inl h2
        · right
          have h3 : r = appleReviewRecord app_name g := by simpa using h2
          subst h3
          rename_i hguard
          simpa [appleReviewRecord] using Int.not_lt.mp hguard
      · exact Or.inr h

/-- Claim C4: with a cutoff date D, neither scraper ever returns a record
dated strictly before D (stated, as the claim does, for providers yielding
strictly decreasing dates; the code enforces the bound per record, so the
monotonicity hypotheses are not even needed). -/
theorem C4_cutoff_enforcement (app_id app_name : String) (D : Int)
    (pages : List (Except String (List GoogleRev))) (fetched : Except String (List AppleRev))
    (_hg : ((okPages pages).flatten.map GoogleRev.at_).Chain' (fun x y => y < x))
    (_ha : ((okApple fetched).map AppleRev.date).Chain' (fun x y => y < x)) :
    (∀ r ∈ scrape_play_store app_id D pages, ¬ r.date < D) ∧
    (∀ r ∈ scrape_app_store app_name D fetched, ¬ r.date < D) := by
  constructor
  · intro r hr
    rcases playPages_mem app_id D pages 0 [] r hr with h | h
    · simp at h
    · exact Int.not_lt.mpr h
  · intro r hr
    rcases fetched with e | revs
    · simp [scrape_app_store] at hr
    · rcases appleLoop_mem app_name D revs [] r hr with h | h
      · simp at h
      · exact Int.not_lt.mpr h

theorem C4_cutoff_enforcement_witness :
    ¬ (googleReviewRecord "app" ⟨"r1", "u", 12, 5, "t", none⟩).date < 10 :=
  (C4_cutoff_enforcement "app" "name" 10
    [Except.ok [⟨"r1", "u", 12, 5, "t", none⟩, ⟨"r2", "u", 11, 5, "t", none⟩], Except.ok []]
    (Except.ok [⟨"a1", "u", 12, 5, "t"⟩, ⟨"a2", "u", 9, 5, "t"⟩])
    (by simp [okPages, List.chain'_cons])
    (by simp [okApple, List.chain'_cons])).1
    (googleReviewRecord "app" ⟨"r1", "u", 12, 5, "t", none⟩) (by decide)

theorem chunksAux_fuel {α : Type} (c : Nat) (hc : 0 < c) :
    ∀ (f1 f2 : Nat) (l : List α), l.length ≤ f1 → l.length ≤ f2 →
      chunksAux c f1 l = chunksAux c f2 l := by
  intro f1
  induction f1 with
  | zero =>
    intro f2 l h1 h2
    have hl : l = [] := List.eq_nil_of_length_eq_zero (Nat.le_zero.mp h1)
    subst hl
    cases f2 <;> rfl
  | succ f ih =>
    intro f2 l h1 h2
    cases l with
    | nil => cases f2 <;> rfl
    | cons a t =>
      cases f2 with
      | zero => simp at h2
      | succ f2' =>
        simp only [chunksAux]
        congr 1
        apply ih
        · rw [List.length_drop, List.length_cons]
          simp only [List.length_cons] at h1
          omega
        · rw [List.length_drop, List.length_cons]
          simp only [List.length_cons] at h2
          omega

theorem chunksOf_cons {α : Type} (c : Nat) (hc : 0 < c) (a : α) (t : List α) :
    chunksOf c (a :: t) = (a :: t).take c :: chunksOf c ((a :: t).drop c) := by
  show chunksAux c (a :: t).length (a :: t) = _
  simp only [List.length_cons, chunksAux]
  congr 1
  apply chunksAux_fuel c hc
  · rw [List.length_drop, List.length_cons]
    omega
  · exact Nat.le_refl _

theorem chunksOf_ne_nil {α : Type} (c : Nat) (hc : 0 < c) (l : List α) (hl : l ≠ []) :
    chunksOf c l ≠ [] := by
  cases l with
  | nil => exact absurd rfl hl
  | cons a t =>
    rw [chunksOf_cons c hc]
    exact List.cons_ne_nil _ _

theorem chunksOf_flatten {α : Type} (c : Nat) (hc : 0 < c) :
    ∀ l : List α, (chunksOf c l).flatten = l
  | [] => by simp [chunksOf, chunksAux]
  | a :: t => by
    rw [chunksOf_cons c hc, List.flatten_cons,
        chunksOf_flatten c hc ((a :: t).drop c), List.take_append_drop]
  termination_by l => l.length
  decreasing_by
    rw [List.length_drop, List.length_cons]
    omega

theorem chunksOf_dropLast_length {α : Type} (c : Nat) (hc : 0 < c) :
    ∀ l : List α, ∀ ch ∈ (chunksOf c l).dropLast, ch.length = c
  | [] => by simp [chunksOf, chunksAux]
  | a :: t => by
    intro ch hch
    rw [chunksOf_cons c hc] at hch
    by_cases hd : (a :: t).drop c = []
    · rw [hd] at hch
      simp [chunksOf, chunksAux] at hch
    · rw [List.dropLast_cons_of_ne_nil (chunksOf_ne_nil c hc _ hd)] at hch
      rcases List.mem_cons.mp hch with rfl | h
      · have hlt : c < (a :: t).length := by
          by_contra hle
          push_neg at hle
          exact hd (List.drop_eq_nil_iff.mpr hle)
        exact List.length_take_of_le (Nat.le_of_lt hlt)
      · exact chunksOf_dropLast_length c hc _ ch h
  termination_by l => l.length
  decreasing_by
    rw [List.length_drop, List.length_cons]
    omega

theorem chunksOf_getLast?_length {α : Type} (c : Nat) (hc : 0 < c) :
    ∀ l : List α, l ≠ [] →
      (chunksOf c l).getLast?.map List.length
        = some (if l.length % c = 0 then c else l.length % c)
  | [], h => absurd rfl h
  | a :: t, _ => by
    rw [chunksOf_cons c hc]
    by_cases hd : (a :: t).drop c = []
    · have hlen : (a :: t).length ≤ c := List.drop_eq_nil_iff.mp hd
      rw [hd]
      show (((a :: t).take c :: chunksOf c []).getLast?).map List.length = _
      rw [List.take_of_length_le hlen]
      have hnil : chunksOf c ([] : List α) = [] := rfl
      rw [hnil, List.getLast?_singleton]
      rcases Nat.lt_or_ge (a :: t).length c with hlt | hge
      · rw [Nat.mod_eq_of_lt hlt]
        simp
      · have heq : (a :: t).length = c := Nat.le_antisymm hlen hge
        rw [heq, Nat.mod_self]
        simpa using heq
    · have hne := chunksOf_ne_nil c hc _ hd
      obtain ⟨b, bs, hbs⟩ := List.exists_cons_of_ne_nil hne
      rw [hbs, List.getLast?_cons_cons, ← hbs,
          chunksOf_getLast?_length c hc ((a :: t).drop c) hd]
      have hcle : c ≤ (a :: t).length := by
        by_contra hlt
        push_neg at hlt
        exact hd (List.drop_eq_nil_iff.mpr (Nat.le_of_lt hlt))
      rw [List.length_drop, ← Nat.mod_eq_sub_mod hcle]
  termination_by l _ => l.length
  decreasing_by
    rw [List.length_drop, List.length_cons]
    omega

/-- Claim C5: for a non-empty record list the classify/persist loop's batching
partitions the list into consecutive chunks (their concatenation is the list
and their lengths sum to its length), every chunk except possibly the last
has the fixed batch size, and the last has length N mod C (or C when C
divides N). -/
theorem C5_chunking (l : List Review) (hl : l ≠ []) :
    (chunksOf PROCESSING_BATCH_SIZE l).flatten = l ∧
    ((chunksOf PROCESSING_BATCH_SIZE l).map List.length).sum = l.length ∧
    (∀ ch ∈ (chunksOf PROCESSING_BATCH_SIZE l).dropLast,
      ch.length = PROCESSING_BATCH_SIZE) ∧
    (chunksOf PROCESSING_BATCH_SIZE l).getLast?.map List.length
      = some (if l.length % PROCESSING_BATCH_SIZE = 0 then PROCESSING_BATCH_SIZE
              else l.length % PROCESSING_BATCH_SIZE) := by
  have hc : 0 < PROCESSING_BATCH_SIZE := by decide
  refine ⟨chunksOf_flatten _ hc l, ?_, chunksOf_dropLast_length _ hc l,
    chunksOf_getLast?_length _ hc l hl⟩
  rw [← List.length_flatten, chunksOf_flatten _ hc l]

theorem C5_chunking_witness :
    (chunksOf PROCESSING_BATCH_SIZE [sampleReview "A"]).flatten = [sampleReview "A"] ∧
    (chunksOf PROCESSING_BATCH_SIZE [sampleReview "A"]).getLast?.map List.length
      = some (if [sampleReview "A"].length % PROCESSING_BATCH_SIZE = 0
              then PROCESSING_BATCH_SIZE
              else [sampleReview "A"].length % PROCESSING_BATCH_SIZE) :=
  ⟨(C5_chunking [sampleReview "A"] (by decide)).1,
   (C5_chunking [sampleReview "A"] (by decide)).2.2.2⟩

end PipelineApp
